import Mathlib

/-!
Verification of the packet-capture analysis pipeline of
`src/packet_copilot/mcp_server.py` (the `PacketCopilot` MCP server).

The embedding models Python JSON values as an inductive `Json` type with
objects as ordered association lists (the image of Python `dict`s parsed
from JSON), the global `SESSIONS` map and filesystem as explicit state,
and the external collaborators (tshark, the semantic splitter, the RAG
chain, the language model) as oracle parameters.
-/

namespace PacketCopilot

/-- Python JSON values as produced by `json.load`: objects are ordered
association lists of string keys. -/
inductive Json where
  | null
  | bool (b : Bool)
  | num (n : Int)
  | str (s : String)
  | arr (xs : List Json)
  | obj (kvs : List (String × Json))

/-- First-match lookup in an association list, i.e. Python `d.get(k)`
(`none` models the key being absent). -/
def lookupKey (k : String) : List (String × Json) → Option Json
  | [] => none
  | (k', v) :: rest => if k' = k then some v else lookupKey k rest

/-- Apply `f` to the value stored under key `k`, leaving all other
entries untouched; absent keys stay absent.  This models an in-place
mutation of the nested dict found under `k` in Python. -/
def modifyKey (k : String) (f : Json → Json) (kvs : List (String × Json)) :
    List (String × Json) :=
  kvs.map (fun p => if p.1 = k then (p.1, f p.2) else p)

/-- The field names popped from each scrubbed layer in `_pcap_to_json`
(`tcp.pop(...)`, `udp.pop(...)`, `tls.pop(...)`). -/
def scrubKeysFor : String → List String
  | "tcp" => ["tcp.payload", "tcp.segment_data", "tcp.reassembled.data"]
  | "udp" => ["udp.payload"]
  | "tls" => ["tls.segment.data"]
  | _ => []

/-- Python `d.pop(k1, None); ...; d.pop(kn, None)` on a dict: remove the listed
keys if present, keeping every other entry in order; on a non-dict value
(`isinstance(..., dict)` false) do nothing. -/
def scrubFields (keys : List String) : Json → Json
  | .obj kvs => .obj (kvs.filter (fun p => !(decide (p.1 ∈ keys))))
  | v => v

/-- The layer-level scrub of `_pcap_to_json`: pop the sensitive fields
from the `tcp`, `udp` and `tls` entries of a `layers` dict. -/
def scrubLayers (layerKvs : List (String × Json)) : List (String × Json) :=
  modifyKey "tls" (scrubFields (scrubKeysFor "tls"))
    (modifyKey "udp" (scrubFields (scrubKeysFor "udp"))
      (modifyKey "tcp" (scrubFields (scrubKeysFor "tcp")) layerKvs))

/-- The per-packet body of the scrub loop in `_pcap_to_json`.
`pkt.get("_source", {}).get("layers", {})` raises `AttributeError`
(modelled as `none`) when `pkt`, the value under `"_source"`, or the
value under `"layers"` is not a dict; a missing `"_source"` or
`"layers"` key yields a fresh `{}` whose mutation is lost, so the packet
is returned unchanged. -/
def scrubPkt : Json → Option Json
  | .obj pktKvs =>
    match lookupKey "_source" pktKvs with
    | none => some (.obj pktKvs)
    | some (.obj srcKvs) =>
      match lookupKey "layers" srcKvs with
      | none => some (.obj pktKvs)
      | some (.obj layerKvs) =>
        some (.obj (modifyKey "_source"
          (fun _ => .obj (modifyKey "layers"
            (fun _ => .obj (scrubLayers layerKvs)) srcKvs)) pktKvs))
      | some _ => none
    | some _ => none
  | _ => none

/-- The scrub loop body over the list of decoded records, in order; a
record that raises aborts the loop (and the scrubbed file is then never
written). -/
def scrubList : List Json → Option (List Json)
  | [] => some []
  | p :: rest =>
    match scrubPkt p, scrubList rest with
    | some q, some qs => some (q :: qs)
    | _, _ => none

/-- The whole scrub pass of `_pcap_to_json` over the decoded top-level
value: `for pkt in data` over the tshark JSON array, scrubbing each
record. -/
def scrubData : Json → Option Json
  | .arr pkts => (scrubList pkts).map .arr
  | _ => none

/-- Look up the named protocol layer of a decoded record:
`pkt["_source"]["layers"][lname]` when those paths exist and are dicts. -/
def layerOf (pktKvs : List (String × Json)) (lname : String) : Option Json :=
  match lookupKey "_source" pktKvs with
  | some (.obj srcKvs) =>
    match lookupKey "layers" srcKvs with
    | some (.obj layerKvs) => lookupKey lname layerKvs
    | _ => none
  | _ => none

-- ### Association-list lemmas

theorem lookupKey_cons (k a : String) (b : Json) (rest : List (String × Json)) :
    lookupKey k ((a, b) :: rest) = if a = k then some b else lookupKey k rest :=
  rfl

theorem modifyKey_cons (k : String) (f : Json → Json) (a : String) (b : Json)
    (rest : List (String × Json)) :
    modifyKey k f ((a, b) :: rest) =
      (if a = k then (a, f b) else (a, b)) :: modifyKey k f rest := by
  by_cases h : a = k <;> simp [modifyKey, h]

theorem lookupKey_modifyKey_self (k : String) (f : Json → Json)
    (kvs : List (String × Json)) :
    lookupKey k (modifyKey k f kvs) = (lookupKey k kvs).map f := by
  induction kvs with
  | nil => rfl
  | cons p rest ih =>
    obtain ⟨a, b⟩ := p
    rw [modifyKey_cons]
    by_cases h : a = k
    · rw [if_pos h, lookupKey_cons, lookupKey_cons, if_pos h, if_pos h]
      rfl
    · rw [if_neg h, lookupKey_cons, lookupKey_cons, if_neg h, if_neg h]
      exact ih

theorem lookupKey_modifyKey_ne (k k' : String) (hk : k' ≠ k) (f : Json → Json)
    (kvs : List (String × Json)) :
    lookupKey k (modifyKey k' f kvs) = lookupKey k kvs := by
  induction kvs with
  | nil => rfl
  | cons p rest ih =>
    obtain ⟨a, b⟩ := p
    rw [modifyKey_cons]
    by_cases h : a = k'
    · have hak : a ≠ k := by rw [h]; exact hk
      rw [if_pos h, lookupKey_cons, lookupKey_cons, if_neg hak, if_neg hak]
      exact ih
    · by_cases h2 : a = k
      · rw [if_neg h, lookupKey_cons, lookupKey_cons, if_pos h2, if_pos h2]
      · rw [if_neg h, lookupKey_cons, lookupKey_cons, if_neg h2, if_neg h2]
        exact ih

theorem modifyKey_modifyKey_self (k : String) (f g : Json → Json)
    (kvs : List (String × Json)) :
    modifyKey k f (modifyKey k g kvs) = modifyKey k (fun v => f (g v)) kvs := by
  induction kvs with
  | nil => rfl
  | cons p rest ih =>
    obtain ⟨a, b⟩ := p
    by_cases h : a = k
    · subst h
      simpa [modifyKey] using ih
    · simpa [modifyKey, h] using ih

theorem lookupKey_filterKeys_mem (keys : List String) (k : String)
    (hk : k ∈ keys) (kvs : List (String × Json)) :
    lookupKey k (kvs.filter (fun p => !(decide (p.1 ∈ keys)))) = none := by
  induction kvs with
  | nil => rfl
  | cons p rest ih =>
    obtain ⟨a, b⟩ := p
    by_cases h : a ∈ keys
    · simpa [List.filter_cons, h] using ih
    · have hne : a ≠ k := fun he => h (he ▸ hk)
      simpa [List.filter_cons, h, lookupKey, hne] using ih

theorem lookupKey_filterKeys_not_mem (keys : List String) (k : String)
    (hk : k ∉ keys) (kvs : List (String × Json)) :
    lookupKey k (kvs.filter (fun p => !(decide (p.1 ∈ keys)))) =
      lookupKey k kvs := by
  induction kvs with
  | nil => rfl
  | cons p rest ih =>
    obtain ⟨a, b⟩ := p
    by_cases h : a ∈ keys
    · have hne : a ≠ k := fun he => hk (he ▸ h)
      simpa [List.filter_cons, h, lookupKey, hne] using ih
    · by_cases h2 : a = k
      · subst h2
        simp [List.filter_cons, h, lookupKey]
      · simpa [List.filter_cons, h, lookupKey, h2] using ih

theorem filterKeys_idem (keys : List String) (kvs : List (String × Json)) :
    (kvs.filter (fun p => !(decide (p.1 ∈ keys)))).filter
        (fun p => !(decide (p.1 ∈ keys))) =
      kvs.filter (fun p => !(decide (p.1 ∈ keys))) := by
  rw [List.filter_filter]
  simp

theorem scrubFields_idem (keys : List String) (v : Json) :
    scrubFields keys (scrubFields keys v) = scrubFields keys v := by
  cases v <;> simp [scrubFields, filterKeys_idem]

/-- The per-entry effect of `scrubLayers` on a `layers` dict entry. -/
def scrubStep (p : String × Json) : String × Json :=
  if p.1 = "tcp" then (p.1, scrubFields (scrubKeysFor "tcp") p.2)
  else if p.1 = "udp" then (p.1, scrubFields (scrubKeysFor "udp") p.2)
  else if p.1 = "tls" then (p.1, scrubFields (scrubKeysFor "tls") p.2)
  else p

theorem scrubLayers_cons (p : String × Json) (rest : List (String × Json)) :
    scrubLayers (p :: rest) = scrubStep p :: scrubLayers rest := by
  obtain ⟨a, b⟩ := p
  by_cases h1 : a = "tcp"
  · subst h1
    simp [scrubLayers, modifyKey, scrubStep]
  · by_cases h2 : a = "udp"
    · subst h2
      simp [scrubLayers, modifyKey, scrubStep]
    · by_cases h3 : a = "tls"
      · subst h3
        simp [scrubLayers, modifyKey, scrubStep]
      · simp [scrubLayers, modifyKey, scrubStep, h1, h2, h3]

theorem scrubStep_idem (p : String × Json) : scrubStep (scrubStep p) = scrubStep p := by
  obtain ⟨a, b⟩ := p
  by_cases h1 : a = "tcp"
  · subst h1
    simp [scrubStep, scrubFields_idem]
  · by_cases h2 : a = "udp"
    · subst h2
      simp [scrubStep, scrubFields_idem]
    · by_cases h3 : a = "tls"
      · subst h3
        simp [scrubStep, scrubFields_idem]
      · simp [scrubStep, h1, h2, h3]

theorem scrubLayers_idem (layerKvs : List (String × Json)) :
    scrubLayers (scrubLayers layerKvs) = scrubLayers layerKvs := by
  induction layerKvs with
  | nil => rfl
  | cons p rest ih =>
    rw [scrubLayers_cons, scrubLayers_cons, scrubStep_idem, ih]

theorem scrubPkt_idem (p q : Json) (h : scrubPkt p = some q) :
    scrubPkt q = some q := by
  cases p with
  | obj pktKvs =>
    cases hsrc : lookupKey "_source" pktKvs with
    | none =>
      simp only [scrubPkt, hsrc] at h
      cases h
      simp [scrubPkt, hsrc]
    | some src =>
      cases src with
      | obj srcKvs =>
        cases hlay : lookupKey "layers" srcKvs with
        | none =>
          simp only [scrubPkt, hsrc, hlay] at h
          cases h
          simp [scrubPkt, hsrc, hlay]
        | some lay =>
          cases lay with
          | obj layerKvs =>
            simp only [scrubPkt, hsrc, hlay] at h
            cases h
            have hsrc' : lookupKey "_source"
                (modifyKey "_source"
                  (fun _ => .obj (modifyKey "layers"
                    (fun _ => .obj (scrubLayers layerKvs)) srcKvs)) pktKvs) =
                some (.obj (modifyKey "layers"
                  (fun _ => .obj (scrubLayers layerKvs)) srcKvs)) := by
              rw [lookupKey_modifyKey_self, hsrc]
              rfl
            have hlay' : lookupKey "layers"
                (modifyKey "layers"
                  (fun _ => .obj (scrubLayers layerKvs)) srcKvs) =
                some (.obj (scrubLayers layerKvs)) := by
              rw [lookupKey_modifyKey_self, hlay]
              rfl
            simp only [scrubPkt, hsrc', hlay', modifyKey_modifyKey_self,
              scrubLayers_idem]
          | null => simp [scrubPkt, hsrc, hlay] at h
          | bool b => simp [scrubPkt, hsrc, hlay] at h
          | num n => simp [scrubPkt, hsrc, hlay] at h
          | str s => simp [scrubPkt, hsrc, hlay] at h
          | arr xs => simp [scrubPkt, hsrc, hlay] at h
      | null => simp [scrubPkt, hsrc] at h
      | bool b => simp [scrubPkt, hsrc] at h
      | num n => simp [scrubPkt, hsrc] at h
      | str s => simp [scrubPkt, hsrc] at h
      | arr xs => simp [scrubPkt, hsrc] at h
  | null => simp [scrubPkt] at h
  | bool b => simp [scrubPkt] at h
  | num n => simp [scrubPkt] at h
  | str s => simp [scrubPkt] at h
  | arr xs => simp [scrubPkt] at h

theorem scrubList_idem (ps qs : List Json) (h : scrubList ps = some qs) :
    scrubList qs = some qs := by
  induction ps generalizing qs with
  | nil =>
    simp only [scrubList] at h
    cases h
    rfl
  | cons p rest ih =>
    simp only [scrubList] at h
    cases hp : scrubPkt p with
    | none => rw [hp] at h; cases h
    | some q =>
      rw [hp] at h
      cases hr : scrubList rest with
      | none => rw [hr] at h; cases h
      | some rs =>
        rw [hr] at h
        cases h
        simp only [scrubList, scrubPkt_idem p q hp, ih rs hr]

theorem scrubPkt_full (pktKvs srcKvs layerKvs : List (String × Json))
    (hsrc : lookupKey "_source" pktKvs = some (.obj srcKvs))
    (hlay : lookupKey "layers" srcKvs = some (.obj layerKvs)) :
    scrubPkt (.obj pktKvs) =
      some (.obj (modifyKey "_source"
        (fun _ => .obj (modifyKey "layers"
          (fun _ => .obj (scrubLayers layerKvs)) srcKvs)) pktKvs)) := by
  simp [scrubPkt, hsrc, hlay]

theorem layerOf_scrubPkt (pktKvs srcKvs layerKvs : List (String × Json))
    (lname : String)
    (hsrc : lookupKey "_source" pktKvs = some (.obj srcKvs))
    (hlay : lookupKey "layers" srcKvs = some (.obj layerKvs)) :
    layerOf (modifyKey "_source"
        (fun _ => .obj (modifyKey "layers"
          (fun _ => .obj (scrubLayers layerKvs)) srcKvs)) pktKvs) lname =
      lookupKey lname (scrubLayers layerKvs) := by
  simp [layerOf, lookupKey_modifyKey_self, hsrc, hlay]

theorem lookupKey_scrubLayers_tcp (l : List (String × Json)) :
    lookupKey "tcp" (scrubLayers l) =
      (lookupKey "tcp" l).map (scrubFields (scrubKeysFor "tcp")) := by
  unfold scrubLayers
  rw [lookupKey_modifyKey_ne _ _ (by decide), lookupKey_modifyKey_ne _ _ (by decide),
    lookupKey_modifyKey_self]

theorem lookupKey_scrubLayers_udp (l : List (String × Json)) :
    lookupKey "udp" (scrubLayers l) =
      (lookupKey "udp" l).map (scrubFields (scrubKeysFor "udp")) := by
  unfold scrubLayers
  rw [lookupKey_modifyKey_ne _ _ (by decide), lookupKey_modifyKey_self,
    lookupKey_modifyKey_ne _ _ (by decide)]

/-- Claim C1: For every decoded record whose transport layer (`tcp` or `udp`)
contains a payload field, the scrub step of `_pcap_to_json` succeeds and
produces a record in which the payload field is absent from that layer,
while every sibling field of the layer that is not one of the scrubbed
sensitive fields is preserved unchanged; the removal applies to both
transport protocols alike. -/
theorem scrub_removes_transport_payload
    (pktKvs srcKvs layerKvs tKvs : List (String × Json)) (lname : String)
    (hl : lname = "tcp" ∨ lname = "udp")
    (hsrc : lookupKey "_source" pktKvs = some (.obj srcKvs))
    (hlay : lookupKey "layers" srcKvs = some (.obj layerKvs))
    (ht : lookupKey lname layerKvs = some (.obj tKvs))
    (hpay : (lookupKey (lname ++ ".payload") tKvs).isSome = true) :
    ∃ pktKvs' tKvs',
      scrubPkt (.obj pktKvs) = some (.obj pktKvs') ∧
      layerOf pktKvs' lname = some (.obj tKvs') ∧
      lookupKey (lname ++ ".payload") tKvs' = none ∧
      (∀ k, k ∉ scrubKeysFor lname → lookupKey k tKvs' = lookupKey k tKvs) := by
  rcases hl with rfl | rfl
  · refine ⟨_, tKvs.filter (fun p => !(decide (p.1 ∈ scrubKeysFor "tcp"))),
      scrubPkt_full pktKvs srcKvs layerKvs hsrc hlay, ?_, ?_, ?_⟩
    · rw [layerOf_scrubPkt pktKvs srcKvs layerKvs _ hsrc hlay,
        lookupKey_scrubLayers_tcp, ht]
      rfl
    · exact lookupKey_filterKeys_mem _ _ (by decide) tKvs
    · intro k hk
      exact lookupKey_filterKeys_not_mem _ _ hk tKvs
  · refine ⟨_, tKvs.filter (fun p => !(decide (p.1 ∈ scrubKeysFor "udp"))),
      scrubPkt_full pktKvs srcKvs layerKvs hsrc hlay, ?_, ?_, ?_⟩
    · rw [layerOf_scrubPkt pktKvs srcKvs layerKvs _ hsrc hlay,
        lookupKey_scrubLayers_udp, ht]
      rfl
    · exact lookupKey_filterKeys_mem _ _ (by decide) tKvs
    · intro k hk
      exact lookupKey_filterKeys_not_mem _ _ hk tKvs

/-- A concrete three-field `tcp` layer used to witness the scrub claims. -/
def tcpFixture : List (String × Json) :=
  [("tcp.srcport", .str "80"), ("tcp.payload", .str "deadbeef"),
   ("tcp.flags", .str "0x0018")]

/-- A concrete decoded record holding `tcpFixture` under
`_source.layers.tcp`. -/
def pktFixture : List (String × Json) :=
  [("_source", .obj [("layers", .obj
    [("frame", .obj [("frame.number", .str "2")]),
     ("tcp", .obj tcpFixture)])])]

theorem scrub_removes_transport_payload_witness :
    ("tcp.payload" ∈ scrubKeysFor "tcp") ∧
    (lookupKey ("tcp" ++ ".payload") tcpFixture).isSome = true ∧
    ∃ pktKvs' tKvs',
      scrubPkt (.obj pktFixture) = some (.obj pktKvs') ∧
      layerOf pktKvs' "tcp" = some (.obj tKvs') ∧
      lookupKey ("tcp" ++ ".payload") tKvs' = none ∧
      (∀ k, k ∉ scrubKeysFor "tcp" → lookupKey k tKvs' = lookupKey k tcpFixture) := by
  refine ⟨by decide, rfl, ?_⟩
  exact scrub_removes_transport_payload pktFixture
    [("layers", .obj [("frame", .obj [("frame.number", .str "2")]),
      ("tcp", .obj tcpFixture)])]
    [("frame", .obj [("frame.number", .str "2")]), ("tcp", .obj tcpFixture)]
    tcpFixture "tcp" (Or.inl rfl) rfl rfl rfl rfl

/-- Claim C2: The scrub transformation of `_pcap_to_json` is idempotent: if
scrubbing a decoded structure succeeds with result `j`, then scrubbing
`j` again succeeds and returns `j` unchanged — in particular the absence
of the scrubbed fields on the second pass raises no error. -/
theorem scrub_idempotent (j j' : Json) (h : scrubData j = some j') :
    scrubData j' = some j' := by
  cases j with
  | arr pkts =>
    simp only [scrubData] at h
    cases hm : scrubList pkts with
    | none => rw [hm] at h; cases h
    | some qs =>
      rw [hm] at h
      cases h
      simp only [scrubData, scrubList_idem pkts qs hm, Option.map]
  | null => simp [scrubData] at h
  | bool b => simp [scrubData] at h
  | num n => simp [scrubData] at h
  | str s => simp [scrubData] at h
  | obj kvs => simp [scrubData] at h

theorem scrub_idempotent_witness :
    scrubData (.arr [.obj pktFixture]) =
      some (.arr [.obj (modifyKey "_source"
        (fun _ => .obj (modifyKey "layers"
          (fun _ => .obj (scrubLayers
            [("frame", .obj [("frame.number", .str "2")]),
             ("tcp", .obj tcpFixture)])) [("layers", .obj
            [("frame", .obj [("frame.number", .str "2")]),
             ("tcp", .obj tcpFixture)])])) pktFixture)]) ∧
    scrubData (.arr [.obj (modifyKey "_source"
        (fun _ => .obj (modifyKey "layers"
          (fun _ => .obj (scrubLayers
            [("frame", .obj [("frame.number", .str "2")]),
             ("tcp", .obj tcpFixture)])) [("layers", .obj
            [("frame", .obj [("frame.number", .str "2")]),
             ("tcp", .obj tcpFixture)])])) pktFixture)]) =
      some (.arr [.obj (modifyKey "_source"
        (fun _ => .obj (modifyKey "layers"
          (fun _ => .obj (scrubLayers
            [("frame", .obj [("frame.number", .str "2")]),
             ("tcp", .obj tcpFixture)])) [("layers", .obj
            [("frame", .obj [("frame.number", .str "2")]),
             ("tcp", .obj tcpFixture)])])) pktFixture)]) := by
  refine ⟨rfl, ?_⟩
  exact scrub_idempotent (.arr [.obj pktFixture]) _ rfl

-- ### Session store, filesystem and the MCP tool operations

/-- A session record: the value stored in `SESSIONS[session_id]`, a dict
with the optional keys `dir`, `pcap_path`, `json_path`, `docs`, `pages`,
`qa` (the query-chain handle is opaque and modelled as a number). -/
structure Session where
  dir : Option String := none
  pcap_path : Option String := none
  json_path : Option String := none
  docs : Option (List Json) := none
  pages : Option (List Json) := none
  qa : Option Nat := none

/-- The fresh `{}` record a `defaultdict` access creates. -/
def Session.empty : Session := {}

/-- Content of a file on the server: raw bytes (unparsable as JSON) or a
parsed JSON document. -/
inductive FileData where
  | bytes (bs : List Nat)
  | jsonData (j : Json)

/-- Generic first-match association-list lookup (Python `d.get(k)`). -/
def alistGet {α : Type} (k : String) : List (String × α) → Option α
  | [] => none
  | (k', v) :: rest => if k' = k then some v else alistGet k rest

/-- Python `d[k] = v`: replace in place, or append when absent. -/
def alistSet {α : Type} (k : String) (v : α) : List (String × α) → List (String × α)
  | [] => [(k, v)]
  | (k', v') :: rest => if k' = k then (k, v) :: rest else (k', v') :: alistSet k v rest

/-- Python `d.pop(k, None)`: drop the entry for `k` if present (dict
keys are unique, so dropping every match is the dict behaviour). -/
def alistRemove {α : Type} (k : String) (l : List (String × α)) :
    List (String × α) :=
  l.filter (fun p => !(decide (p.1 = k)))

/-- The server-global mutable state: the `SESSIONS` map, the filesystem
(path to file content), the set of existing directories, a counter
feeding `tempfile.mkdtemp` fresh names, and the number of tshark
subprocess invocations so far. -/
structure St where
  sessions : List (String × Session) := []
  fs : List (String × FileData) := []
  dirs : List String := []
  ctr : Nat := 0
  tsharkCalls : Nat := 0

/-- Python exceptions raised by the tools. -/
inductive Err where
  | valueError (msg : String)
  | calledProcessError
  | attributeError
  | loaderError (msg : String)

/-- The external collaborators, as opaque total functions: the tshark
decode (given the capture file content, `none` on non-zero exit or
unreadable output), the per-document character splitting that
`load_and_split()` runs with its default `RecursiveCharacterTextSplitter`
(one or more chunks per loaded document, depending on the default
4000-character chunk size), the semantic splitter, the `str()` rendering
of a loaded document, the Chroma/Gemini chain builder and its answer
call (`none` when the response carries no `answer` key). -/
structure Oracle where
  tshark : Option FileData → Option Json
  textSplit : Json → List Json
  splitDocs : List Json → List Json
  showDoc : Json → String
  buildChain : List Json → String → String → Nat
  answer : Nat → String → Option String

/-- The unique directory name `tempfile.mkdtemp(prefix=...)` allocates. -/
def mkdtempName (sid : String) (n : Nat) : String :=
  "/tmp/pcap_" ++ sid ++ "_" ++ toString n

/-- The helper `_session`: `SESSIONS[session_id]` through the `defaultdict`, setting
`s["dir"]` to a fresh temporary directory when absent.  Returns the
working directory, the (possibly updated) record and the new state. -/
def _session (st : St) (sid : String) : String × Session × St :=
  match alistGet sid st.sessions with
  | some s =>
    match s.dir with
    | some d => (d, s, st)
    | none =>
      let d := mkdtempName sid st.ctr
      let s' := { s with dir := some d }
      (d, s',
        { st with
            sessions := alistSet sid s' st.sessions
            dirs := d :: st.dirs
            ctr := st.ctr + 1 })
  | none =>
    let d := mkdtempName sid st.ctr
    let s' := { Session.empty with dir := some d }
    (d, s',
      { st with
          sessions := alistSet sid s' st.sessions
          dirs := d :: st.dirs
          ctr := st.ctr + 1 })

/-- Model of `os.path.basename` for POSIX paths: the suffix after the last `/`. -/
def afterLastSlash : List Char → List Char
  | [] => []
  | c :: rest => if c = '/' ∨ '/' ∈ rest then afterLastSlash rest else c :: rest

def basename (p : String) : String := String.mk (afterLastSlash p.data)

/-- Model of `os.path.join` for two POSIX components. -/
def joinPath (d b : String) : String :=
  if b.data.head? = some '/' then b
  else if d = "" then b
  else if d.data.getLast? = some '/' then d ++ b
  else d ++ "/" ++ b

/-- Tool `new_session`: allocate the record for a freshly drawn identifier
(the uuid4 draw is the argument) and return the identifier. -/
def new_session (st : St) (sid : String) : St × Except Err String :=
  ((_session st sid).2.2, .ok sid)

/-- Tool `upload_pcap_base64`: decode the base64 body (the already-decoded
bytes, or `none` for a `binascii` failure, are the argument), write them
under the session directory at the basename of the supplied filename,
and record `pcap_path`. -/
def upload_pcap_base64 (st : St) (sid filename : String)
    (decoded : Option (List Nat)) : St × Except Err String :=
  let (d, s, st1) := _session st sid
  match decoded with
  | none => (st1, .error (.valueError "Invalid base64 payload"))
  | some raw =>
    let pcap_path := joinPath d (basename filename)
    let s' := { s with pcap_path := some pcap_path }
    ({ st1 with
        fs := alistSet pcap_path (.bytes raw) st1.fs
        sessions := alistSet sid s' st1.sessions },
     .ok pcap_path)

/-- Helper `_pcap_to_json`: run tshark with its stdout redirected to
`json_path` (`check=True`: a non-zero exit raises, leaving the truncated
redirect target), then re-parse, scrub and rewrite the output in place. -/
def _pcap_to_json (o : Oracle) (st : St) (pcap_path json_path : String) :
    St × Except Err Unit :=
  let st1 := { st with tsharkCalls := st.tsharkCalls + 1 }
  match o.tshark (alistGet pcap_path st1.fs) with
  | none =>
    ({ st1 with fs := alistSet json_path (.bytes []) st1.fs },
     .error .calledProcessError)
  | some j =>
    let st2 := { st1 with fs := alistSet json_path (.jsonData j) st1.fs }
    match scrubData j with
    | none => (st2, .error .attributeError)
    | some j' =>
      ({ st2 with fs := alistSet json_path (.jsonData j') st2.fs }, .ok ())

/-- Tool `convert_to_json`: require a truthy `pcap_path`, decode and scrub to
`<pcap>.json`, record and return `json_path`. -/
def convert_to_json (o : Oracle) (st : St) (sid : String) :
    St × Except Err String :=
  let (_, s, st1) := _session st sid
  match s.pcap_path with
  | none => (st1, .error (.valueError "No PCAP uploaded. Call upload_pcap_base64 first."))
  | some pp =>
    if pp = "" then
      (st1, .error (.valueError "No PCAP uploaded. Call upload_pcap_base64 first."))
    else
      let jp := pp ++ ".json"
      match _pcap_to_json o st1 pp jp with
      | (st2, .error e) => (st2, .error e)
      | (st2, .ok _) =>
        ({ st2 with sessions :=
            alistSet sid { s with json_path := some jp } st2.sessions },
         .ok jp)

/-- The jq program `._source.layers | del(.data)` applied to one record:
missing keys and `null` index to `null`; indexing a non-object non-null
value is a jq error (`none`). -/
def extractLayers : Json → Option Json
  | .null => some .null
  | .obj kvs =>
    match lookupKey "_source" kvs with
    | none => some .null
    | some .null => some .null
    | some (.obj srcKvs) =>
      match lookupKey "layers" srcKvs with
      | none => some .null
      | some .null => some .null
      | some (.obj layerKvs) =>
        some (.obj (layerKvs.filter (fun p => !(decide (p.1 = "data")))))
      | some _ => none
    | some _ => none
  | _ => none

/-- The jq iteration `.[] | ...` over the element list, in order, failing on the
first element the schema rejects. -/
def loadList : List Json → Option (List Json)
  | [] => some []
  | p :: rest =>
    match extractLayers p, loadList rest with
    | some d, some ds => some (d :: ds)
    | _, _ => none

/-- The `load()` half of `loader.load_and_split()`:
`JSONLoader(jq_schema=".[] | ._source.layers | del(.data)")` over the
parsed file yields one loaded document per record of the top-level array
(jq `.[]` iterates the values of an object and fails on other top-level
values). -/
def loadPages : Json → Option (List Json)
  | .arr pkts => loadList pkts
  | .obj kvs => loadList (kvs.map Prod.snd)
  | _ => none

/-- The splitting half of `loader.load_and_split()`: with no splitter
argument it runs the default `RecursiveCharacterTextSplitter` through
`split_documents`, which splits each loaded document independently into
one or more chunks (per-document behaviour `f`, external) and
concatenates the results in order. -/
def split_documents (f : Json → List Json) : List Json → List Json
  | [] => []
  | u :: rest => f u ++ split_documents f rest

/-- Helper `_build_docs_from_json`: `loader.load_and_split()` — load one
document per record from the decoded JSON file, run the default
character-splitting pass over them — then split the result into
semantic chunks. -/
def _build_docs_from_json (o : Oracle) (st : St) (json_path : String) :
    Except Err (List Json × List Json) :=
  match alistGet json_path st.fs with
  | none => .error (.loaderError "file not found")
  | some (.bytes _) => .error (.loaderError "invalid json")
  | some (.jsonData j) =>
    match loadPages j with
    | none => .error (.loaderError "jq schema error")
    | some units =>
      let pages := split_documents o.textSplit units
      .ok (o.splitDocs pages, pages)

/-- Helper `_return_system_text`: the fixed persona preamble followed by the
`str()` rendering of the first five source units. -/
def _return_system_text (o : Oracle) (pages : List Json) : String :=
  "\nYou are an expert assistant specialized in analyzing PCAPs. " ++
  "Use only the provided packet_capture_info.\n" ++
  "Be concise, structured, and add brief protocol hints when relevant.\n\n" ++
  "packet_capture_info (sample):\n" ++
  String.intercalate " " ((pages.take 5).map o.showDoc) ++ "\n"

/-- Tool `index_pcap`: require a truthy `json_path`, build documents, reject
an empty document list, store `docs`/`pages`/`qa` and report the chunk
and record counts. -/
def index_pcap (o : Oracle) (st : St) (sid : String) : St × Except Err String :=
  let (d, s, st1) := _session st sid
  match s.json_path with
  | none => (st1, .error (.valueError "No JSON found. Call convert_to_json first."))
  | some jp =>
    if jp = "" then
      (st1, .error (.valueError "No JSON found. Call convert_to_json first."))
    else
      match _build_docs_from_json o st1 jp with
      | .error e => (st1, .error e)
      | .ok (docs, pages) =>
        if docs.isEmpty then
          (st1, .error (.valueError "No documents generated from the PCAP JSON."))
        else
          let priming := _return_system_text o pages
          let persist_dir := joinPath d ("chroma_" ++ sid)
          let s' :=
            { s with
                docs := some docs
                pages := some pages
                qa := some (o.buildChain docs priming persist_dir) }
          ({ st1 with sessions := alistSet sid s' st1.sessions },
           .ok ("Indexed " ++ toString docs.length ++ " chunks from " ++
                toString pages.length ++ " packets."))

/-- Tool `analyze_pcap`: answer a question against the indexed session, or
return the fixed not-indexed message when `s.get("qa")` is `None`. -/
def analyze_pcap (o : Oracle) (st : St) (sid question : String) :
    St × Except Err String :=
  let (_, s, st1) := _session st sid
  match s.qa with
  | none => (st1, .ok "PCAP not indexed yet. Call index_pcap first.")
  | some h =>
    match o.answer h question with
    | some a => (st1, .ok a)
    | none => (st1, .ok "No response generated.")

/-- Tool `cleanup`: pop the session record; if it carried a truthy existing
working directory, delete it best-effort (`shutil.rmtree(...,
ignore_errors=True)`, modelled by an arbitrary `rmtree` outcome on the
filesystem and directory set); always return `"ok"`. -/
def cleanup
    (rmtree : String → List (String × FileData) → List String →
      List (String × FileData) × List String)
    (st : St) (sid : String) : St × Except Err String :=
  match alistGet sid st.sessions with
  | none => (st, .ok "ok")
  | some s =>
    let st1 := { st with sessions := alistRemove sid st.sessions }
    match s.dir with
    | none => (st1, .ok "ok")
    | some wd =>
      if wd = "" then (st1, .ok "ok")
      else if wd ∈ st1.dirs then
        let (fs', dirs') := rmtree wd st1.fs st1.dirs
        ({ st1 with fs := fs', dirs := dirs' }, .ok "ok")
      else (st1, .ok "ok")

/-- The session record currently stored for an identifier. -/
def sessionOf (st : St) (sid : String) : Option Session :=
  alistGet sid st.sessions

-- ### Generic association-list lemmas

theorem alistGet_alistSet_self {α : Type} (k : String) (v : α)
    (l : List (String × α)) : alistGet k (alistSet k v l) = some v := by
  induction l with
  | nil => simp [alistGet, alistSet]
  | cons p rest ih =>
    obtain ⟨a, b⟩ := p
    by_cases h : a = k
    · simp [alistSet, h, alistGet]
    · simp [alistSet, h, alistGet, ih]

theorem alistGet_alistSet_ne {α : Type} (k k' : String) (hne : k' ≠ k) (v : α)
    (l : List (String × α)) : alistGet k' (alistSet k v l) = alistGet k' l := by
  have hkk : ¬k = k' := fun he => hne he.symm
  induction l with
  | nil => simp [alistGet, alistSet, hkk]
  | cons p rest ih =>
    obtain ⟨a, b⟩ := p
    by_cases h : a = k
    · subst h
      simp [alistSet, alistGet, hkk]
    · simp [alistSet, h, alistGet, ih]

theorem alistGet_alistRemove_self {α : Type} (k : String)
    (l : List (String × α)) : alistGet k (alistRemove k l) = none := by
  induction l with
  | nil => rfl
  | cons p rest ih =>
    obtain ⟨a, b⟩ := p
    by_cases h : a = k
    · simpa [alistRemove, List.filter_cons, h] using ih
    · simpa [alistRemove, List.filter_cons, h, alistGet] using ih

theorem alistGet_alistRemove_ne {α : Type} (k k' : String) (hne : k' ≠ k)
    (l : List (String × α)) : alistGet k' (alistRemove k l) = alistGet k' l := by
  induction l with
  | nil => rfl
  | cons p rest ih =>
    obtain ⟨a, b⟩ := p
    by_cases h : a = k
    · subst h
      have hak : ¬a = k' := fun he => hne he.symm
      simpa [alistRemove, List.filter_cons, alistGet, hak] using ih
    · by_cases h2 : a = k'
      · simp [alistRemove, List.filter_cons, h, alistGet, h2, hne]
      · simpa [alistRemove, List.filter_cons, h, alistGet, h2] using ih

-- ### Claim theorems about the tool operations

/-- Claim C3: For every session identifier and question, calling
`analyze_pcap` while no query chain has been indexed for the session
(the session is absent or its `qa` field is unset) returns the fixed
not-ready message as an ordinary `.ok` answer and raises no exception. -/
theorem analyze_before_index_not_ready (o : Oracle) (st : St)
    (sid question : String)
    (h : (sessionOf st sid).bind Session.qa = none) :
    (analyze_pcap o st sid question).2 =
      .ok "PCAP not indexed yet. Call index_pcap first." := by
  unfold sessionOf at h
  cases hg : alistGet sid st.sessions with
  | none => simp [analyze_pcap, _session, hg, Session.empty]
  | some s =>
    rw [hg] at h
    replace h : s.qa = none := h
    cases hd : s.dir with
    | some d => simp [analyze_pcap, _session, hg, hd, h]
    | none => simp [analyze_pcap, _session, hg, hd, h]

/-- A concrete oracle: tshark always fails, the character splitter
leaves every document in one piece (its behaviour on documents within
the default chunk size), the semantic splitter is the identity, the
chain handle is `0`, the model returns no answer key. -/
def oracleFixture : Oracle where
  tshark := fun _ => none
  textSplit := fun u => [u]
  splitDocs := fun l => l
  showDoc := fun _ => "Document"
  buildChain := fun _ _ _ => 0
  answer := fun _ _ => none

theorem analyze_before_index_not_ready_witness :
    (sessionOf {} "s1").bind Session.qa = none ∧
    (analyze_pcap oracleFixture {} "s1" "what is in this capture?").2 =
      .ok "PCAP not indexed yet. Call index_pcap first." :=
  ⟨rfl, analyze_before_index_not_ready oracleFixture {} "s1"
    "what is in this capture?" rfl⟩

/-- Claim C5: the tool `cleanup` is total and idempotent over identifiers: for every
state, identifier and best-effort deletion outcome, the first call
returns `"ok"`, a second call returns `"ok"` again and leaves the state
of the first call untouched — in particular a never-created identifier
succeeds, and a deletion failure is never propagated. -/
theorem cleanup_idempotent_total
    (rmtree : String → List (String × FileData) → List String →
      List (String × FileData) × List String)
    (st : St) (sid : String) :
    (cleanup rmtree st sid).2 = .ok "ok" ∧
    (cleanup rmtree (cleanup rmtree st sid).1 sid).2 = .ok "ok" ∧
    (cleanup rmtree (cleanup rmtree st sid).1 sid).1 =
      (cleanup rmtree st sid).1 := by
  cases hg : alistGet sid st.sessions with
  | none => simp [cleanup, hg]
  | some s =>
    cases hd : s.dir with
    | none =>
      simp [cleanup, hg, hd, alistGet_alistRemove_self]
    | some wd =>
      by_cases hw : wd = ""
      · simp [cleanup, hg, hd, hw, alistGet_alistRemove_self]
      · by_cases hx : wd ∈ st.dirs
        · cases hrm : rmtree wd st.fs st.dirs with
          | mk fs' dirs' =>
            simp [cleanup, hg, hd, hw, hx, hrm, alistGet_alistRemove_self]
        · simp [cleanup, hg, hd, hw, hx, alistGet_alistRemove_self]

/-- Claim C4: For every session on which upload has not succeeded (no
`pcap_path` — and hence no `json_path` — is recorded, or no session
exists at all), `convert_to_json` raises the descriptive `ValueError`
without invoking the tshark decoder, leaves the filesystem unchanged (no
decoded-JSON file is produced), and leaves `json_path` unset on the
session record. -/
theorem convert_before_upload_fails (o : Oracle) (st : St) (sid : String)
    (hp : (sessionOf st sid).bind Session.pcap_path = none)
    (hj : (sessionOf st sid).bind Session.json_path = none) :
    (convert_to_json o st sid).2 =
      .error (.valueError "No PCAP uploaded. Call upload_pcap_base64 first.") ∧
    (convert_to_json o st sid).1.fs = st.fs ∧
    (convert_to_json o st sid).1.tsharkCalls = st.tsharkCalls ∧
    (sessionOf (convert_to_json o st sid).1 sid).bind Session.json_path = none := by
  unfold sessionOf at hp hj ⊢
  cases hg : alistGet sid st.sessions with
  | none =>
    simp [convert_to_json, _session, hg, Session.empty, alistGet_alistSet_self]
  | some s =>
    rw [hg] at hp hj
    replace hp : s.pcap_path = none := hp
    replace hj : s.json_path = none := hj
    cases hd : s.dir with
    | some d => simp [convert_to_json, _session, hg, hd, hp, hj]
    | none =>
      simp [convert_to_json, _session, hg, hd, hp, hj, alistGet_alistSet_self]

theorem convert_before_upload_fails_witness :
    (sessionOf {} "s4").bind Session.pcap_path = none ∧
    (sessionOf {} "s4").bind Session.json_path = none ∧
    ((convert_to_json oracleFixture {} "s4").2 =
      .error (.valueError "No PCAP uploaded. Call upload_pcap_base64 first.") ∧
    (convert_to_json oracleFixture {} "s4").1.fs = St.fs {} ∧
    (convert_to_json oracleFixture {} "s4").1.tsharkCalls = St.tsharkCalls {} ∧
    (sessionOf (convert_to_json oracleFixture {} "s4").1 "s4").bind
      Session.json_path = none) :=
  ⟨rfl, rfl, convert_before_upload_fails oracleFixture {} "s4" rfl rfl⟩

/-- No character of `afterLastSlash cs` is a directory separator. -/
theorem no_slash_afterLastSlash (cs : List Char) :
    ∀ c ∈ afterLastSlash cs, c ≠ '/' := by
  induction cs with
  | nil =>
    intro c hc
    simp [afterLastSlash] at hc
  | cons a rest ih =>
    by_cases h : a = '/' ∨ '/' ∈ rest
    · intro c hc
      simp only [afterLastSlash, if_pos h] at hc
      exact ih c hc
    · push_neg at h
      intro c hc
      simp only [afterLastSlash, if_neg (not_or.mpr ⟨h.1, h.2⟩)] at hc
      rcases List.mem_cons.mp hc with rfl | hm
      · exact h.1
      · intro he
        exact h.2 (he ▸ hm)

/-- Claim C9: For every session and filename — including filenames with
directory components — `upload_pcap_base64` returns exactly the
session's working directory joined with the basename of the filename,
records that path as the session's `pcap_path`, and the basename
contains no directory separator, so the path points directly inside the
session directory. -/
theorem upload_writes_basename_in_session_dir (st : St)
    (sid filename : String) (raw : List Nat) :
    (upload_pcap_base64 st sid filename (some raw)).2 =
      .ok (joinPath (_session st sid).1 (basename filename)) ∧
    (sessionOf (upload_pcap_base64 st sid filename (some raw)).1 sid).bind
      Session.dir = some (_session st sid).1 ∧
    (sessionOf (upload_pcap_base64 st sid filename (some raw)).1 sid).bind
      Session.pcap_path =
      some (joinPath (_session st sid).1 (basename filename)) ∧
    ∀ c ∈ (basename filename).data, c ≠ '/' := by
  cases hg : alistGet sid st.sessions with
  | none =>
    refine ⟨?_, ?_, ?_, no_slash_afterLastSlash filename.data⟩ <;>
      simp [upload_pcap_base64, _session, sessionOf, hg, Session.empty,
        alistGet_alistSet_self]
  | some s =>
    cases hd : s.dir with
    | some d =>
      refine ⟨?_, ?_, ?_, no_slash_afterLastSlash filename.data⟩ <;>
        simp [upload_pcap_base64, _session, sessionOf, hg, hd,
          alistGet_alistSet_self]
    | none =>
      refine ⟨?_, ?_, ?_, no_slash_afterLastSlash filename.data⟩ <;>
        simp [upload_pcap_base64, _session, sessionOf, hg, hd,
          alistGet_alistSet_self]

/-- Claim C10: After `cleanup`, the identifier is absent from the session
map, and the lazy `_session` access every operation performs creates a
fresh record that is empty apart from a newly allocated working
directory (the next `mkdtemp` name), records it, and registers the new
directory — exactly as for a never-created identifier. -/
theorem cleanup_then_fresh_session
    (rmtree : String → List (String × FileData) → List String →
      List (String × FileData) × List String)
    (st : St) (sid : String) :
    alistGet sid ((cleanup rmtree st sid).1).sessions = none ∧
    (_session (cleanup rmtree st sid).1 sid).2.1 =
      { Session.empty with
          dir := some ((_session (cleanup rmtree st sid).1 sid).1) } ∧
    (_session (cleanup rmtree st sid).1 sid).1 =
      mkdtempName sid ((cleanup rmtree st sid).1).ctr ∧
    alistGet sid (((_session (cleanup rmtree st sid).1 sid).2.2).sessions) =
      some ((_session (cleanup rmtree st sid).1 sid).2.1) ∧
    ((_session (cleanup rmtree st sid).1 sid).2.2).dirs =
      (_session (cleanup rmtree st sid).1 sid).1 ::
        ((cleanup rmtree st sid).1).dirs := by
  have hnone : alistGet sid ((cleanup rmtree st sid).1).sessions = none := by
    cases hg : alistGet sid st.sessions with
    | none => simp [cleanup, hg]
    | some s =>
      cases hd : s.dir with
      | none => simp [cleanup, hg, hd, alistGet_alistRemove_self]
      | some wd =>
        by_cases hw : wd = ""
        · simp [cleanup, hg, hd, hw, alistGet_alistRemove_self]
        · by_cases hx : wd ∈ st.dirs
          · cases hrm : rmtree wd st.fs st.dirs with
            | mk fs' dirs' =>
              simp [cleanup, hg, hd, hw, hx, hrm, alistGet_alistRemove_self]
          · simp [cleanup, hg, hd, hw, hx, alistGet_alistRemove_self]
  refine ⟨hnone, ?_, ?_, ?_, ?_⟩ <;>
    simp [_session, hnone, alistGet_alistSet_self]

theorem loadList_length (ps ds : List Json) (h : loadList ps = some ds) :
    ds.length = ps.length := by
  induction ps generalizing ds with
  | nil =>
    simp only [loadList] at h
    cases h
    rfl
  | cons p rest ih =>
    simp only [loadList] at h
    cases he : extractLayers p with
    | none => rw [he] at h; cases h
    | some d =>
      rw [he] at h
      cases hr : loadList rest with
      | none => rw [hr] at h; cases h
      | some ds' =>
        rw [hr] at h
        cases h
        simp [ih ds' hr]

/-- Claim C6: For every session whose recorded decoded-JSON path points to
a missing file, an unparsable file, or a decoded capture yielding zero
source units (an empty record list), `index_pcap` fails with an
exception rather than succeeding. -/
theorem index_fails_on_bad_input (o : Oracle) (st : St) (sid jp : String)
    (hsess : (sessionOf st sid).bind Session.json_path = some jp)
    (hjp : jp ≠ "")
    (hsplit : o.splitDocs [] = [])
    (hbad : alistGet jp st.fs = none ∨
      (∃ bs, alistGet jp st.fs = some (.bytes bs)) ∨
      (∃ j, alistGet jp st.fs = some (.jsonData j) ∧ loadPages j = some [])) :
    ∃ e, (index_pcap o st sid).2 = .error e := by
  unfold sessionOf at hsess
  cases hg : alistGet sid st.sessions with
  | none => rw [hg] at hsess; cases hsess
  | some s =>
    rw [hg] at hsess
    replace hsess : s.json_path = some jp := hsess
    cases hd : s.dir with
    | some d =>
      rcases hbad with hb | ⟨bs, hb⟩ | ⟨j, hb, hl⟩
      · exact ⟨Err.loaderError "file not found", by simp [index_pcap,
          _session, hg, hd, hsess, hjp, _build_docs_from_json, hb]⟩
      · exact ⟨Err.loaderError "invalid json", by simp [index_pcap,
          _session, hg, hd, hsess, hjp, _build_docs_from_json, hb]⟩
      · exact ⟨Err.valueError "No documents generated from the PCAP JSON.",
          by simp [index_pcap, _session, hg, hd, hsess, hjp,
            _build_docs_from_json, split_documents, hb, hl, hsplit]⟩
    | none =>
      rcases hbad with hb | ⟨bs, hb⟩ | ⟨j, hb, hl⟩
      · exact ⟨Err.loaderError "file not found", by simp [index_pcap,
          _session, hg, hd, hsess, hjp, _build_docs_from_json, hb]⟩
      · exact ⟨Err.loaderError "invalid json", by simp [index_pcap,
          _session, hg, hd, hsess, hjp, _build_docs_from_json, hb]⟩
      · exact ⟨Err.valueError "No documents generated from the PCAP JSON.",
          by simp [index_pcap, _session, hg, hd, hsess, hjp,
            _build_docs_from_json, split_documents, hb, hl, hsplit]⟩

/-- A state whose session `s6` records a decoded-JSON path that does not
exist on the filesystem. -/
def stC6 : St :=
  { sessions :=
      [("s6", { Session.empty with
          dir := some "/d6"
          json_path := some "/d6/cap.pcap.json" })] }

theorem index_fails_on_bad_input_witness :
    ((sessionOf stC6 "s6").bind Session.json_path = some "/d6/cap.pcap.json") ∧
    ("/d6/cap.pcap.json" ≠ "") ∧
    (oracleFixture.splitDocs [] = []) ∧
    (alistGet "/d6/cap.pcap.json" stC6.fs = none) ∧
    ∃ e, (index_pcap oracleFixture stC6 "s6").2 = .error e :=
  ⟨rfl, by simp, rfl, rfl,
    index_fails_on_bad_input oracleFixture stC6 "s6" "/d6/cap.pcap.json"
      rfl (by simp) rfl (Or.inl rfl)⟩

theorem split_documents_length_one (f : Json → List Json)
    (units : List Json) (h : ∀ u ∈ units, (f u).length = 1) :
    (split_documents f units).length = units.length := by
  induction units with
  | nil => rfl
  | cons u rest ih =>
    simp only [split_documents, List.length_append, List.length_cons]
    rw [h u (List.mem_cons_self u rest),
      ih (fun v hv => h v (List.mem_cons_of_mem u hv))]
    omega

/-- Claim C7, amended: Whenever `index_pcap` succeeds, the summary
string it returns reports both stored counts — the number of semantic
chunks held as `docs` and the number of loaded source documents held as
`pages`; the chunk list is non-empty, `pages` is exactly the per-frame
loader output passed through the default character-splitting pass of
`load_and_split()`, and the page count equals the number of frames in
the decoded JSON array whenever that pass leaves each frame's document
in one piece (its behaviour on frames within the default 4000-character
chunk size). -/
theorem index_success_summary (o : Oracle) (st : St) (sid : String)
    (st' : St) (msg : String)
    (h : index_pcap o st sid = (st', .ok msg)) :
    ∃ docs pages,
      (sessionOf st' sid).bind Session.docs = some docs ∧
      (sessionOf st' sid).bind Session.pages = some pages ∧
      docs ≠ [] ∧
      msg = "Indexed " ++ toString docs.length ++ " chunks from " ++
        toString pages.length ++ " packets." ∧
      (∀ jp pkts units,
        (sessionOf st sid).bind Session.json_path = some jp →
        alistGet jp st.fs = some (.jsonData (.arr pkts)) →
        loadList pkts = some units →
        pages = split_documents o.textSplit units ∧
        ((∀ u ∈ units, (o.textSplit u).length = 1) →
          pages.length = pkts.length)) := by
  cases hg : alistGet sid st.sessions with
  | none => simp [index_pcap, _session, hg, Session.empty] at h
  | some s =>
    cases hd : s.dir with
    | some d =>
      cases hjson : s.json_path with
      | none => simp [index_pcap, _session, hg, hd, hjson] at h
      | some jp =>
        by_cases hjp : jp = ""
        · simp [index_pcap, _session, hg, hd, hjson, hjp] at h
        · cases hfs : alistGet jp st.fs with
          | none =>
            simp [index_pcap, _session, hg, hd, hjson, hjp,
              _build_docs_from_json, hfs] at h
          | some fd =>
            cases fd with
            | bytes bs =>
              simp [index_pcap, _session, hg, hd, hjson, hjp,
                _build_docs_from_json, hfs] at h
            | jsonData j =>
              cases hlp : loadPages j with
              | none =>
                simp [index_pcap, _session, hg, hd, hjson, hjp,
                  _build_docs_from_json, hfs, hlp] at h
              | some units =>
                cases hde :
                    (o.splitDocs (split_documents o.textSplit units)).isEmpty with
                | true =>
                  simp [index_pcap, _session, hg, hd, hjson, hjp,
                    _build_docs_from_json, hfs, hlp, hde] at h
                | false =>
                  simp [index_pcap, _session, hg, hd, hjson, hjp,
                    _build_docs_from_json, hfs, hlp, hde, Prod.mk.injEq] at h
                  obtain ⟨hst, hmsg⟩ := h
                  refine ⟨o.splitDocs (split_documents o.textSplit units),
                    split_documents o.textSplit units,
                    ?_, ?_, ?_, hmsg.symm, ?_⟩
                  · rw [← hst]
                    simp [sessionOf, alistGet_alistSet_self]
                  · rw [← hst]
                    simp [sessionOf, alistGet_alistSet_self]
                  · intro hnil
                    rw [hnil] at hde
                    simp at hde
                  · intro jp0 pkts units0 hj0 hf0 hl0
                    unfold sessionOf at hj0
                    rw [hg] at hj0
                    replace hj0 : s.json_path = some jp0 := hj0
                    rw [hjson] at hj0
                    cases hj0
                    rw [hfs] at hf0
                    cases hf0
                    have h1 : loadList pkts = some units := by
                      simpa [loadPages] using hlp
                    rw [hl0] at h1
                    cases h1
                    refine ⟨rfl, ?_⟩
                    intro hone
                    rw [split_documents_length_one o.textSplit units hone]
                    exact loadList_length pkts units hl0
    | none =>
      cases hjson : s.json_path with
      | none => simp [index_pcap, _session, hg, hd, hjson] at h
      | some jp =>
        by_cases hjp : jp = ""
        · simp [index_pcap, _session, hg, hd, hjson, hjp] at h
        · cases hfs : alistGet jp st.fs with
          | none =>
            simp [index_pcap, _session, hg, hd, hjson, hjp,
              _build_docs_from_json, hfs] at h
          | some fd =>
            cases fd with
            | bytes bs =>
              simp [index_pcap, _session, hg, hd, hjson, hjp,
                _build_docs_from_json, hfs] at h
            | jsonData j =>
              cases hlp : loadPages j with
              | none =>
                simp [index_pcap, _session, hg, hd, hjson, hjp,
                  _build_docs_from_json, hfs, hlp] at h
              | some units =>
                cases hde :
                    (o.splitDocs (split_documents o.textSplit units)).isEmpty with
                | true =>
                  simp [index_pcap, _session, hg, hd, hjson, hjp,
                    _build_docs_from_json, hfs, hlp, hde] at h
                | false =>
                  simp [index_pcap, _session, hg, hd, hjson, hjp,
                    _build_docs_from_json, hfs, hlp, hde, Prod.mk.injEq] at h
                  obtain ⟨hst, hmsg⟩ := h
                  refine ⟨o.splitDocs (split_documents o.textSplit units),
                    split_documents o.textSplit units,
                    ?_, ?_, ?_, hmsg.symm, ?_⟩
                  · rw [← hst]
                    simp [sessionOf, alistGet_alistSet_self]
                  · rw [← hst]
                    simp [sessionOf, alistGet_alistSet_self]
                  · intro hnil
                    rw [hnil] at hde
                    simp at hde
                  · intro jp0 pkts units0 hj0 hf0 hl0
                    unfold sessionOf at hj0
                    rw [hg] at hj0
                    replace hj0 : s.json_path = some jp0 := hj0
                    rw [hjson] at hj0
                    cases hj0
                    rw [hfs] at hf0
                    cases hf0
                    have h1 : loadList pkts = some units := by
                      simpa [loadPages] using hlp
                    rw [hl0] at h1
                    cases h1
                    refine ⟨rfl, ?_⟩
                    intro hone
                    rw [split_documents_length_one o.textSplit units hone]
                    exact loadList_length pkts units hl0

/-- A state whose session `s7` holds a decoded one-frame capture ready
to index. -/
def stC7 : St :=
  { sessions :=
      [("s7", { Session.empty with
          dir := some "/d7"
          json_path := some "/d7/cap.pcap.json" })]
    fs := [("/d7/cap.pcap.json", .jsonData (.arr [.obj pktFixture]))] }

theorem index_success_summary_witness :
    ∃ docs pages,
      (sessionOf ((index_pcap oracleFixture stC7 "s7").1) "s7").bind
        Session.docs = some docs ∧
      (sessionOf ((index_pcap oracleFixture stC7 "s7").1) "s7").bind
        Session.pages = some pages ∧
      docs ≠ [] ∧
      "Indexed 1 chunks from 1 packets." =
        "Indexed " ++ toString docs.length ++ " chunks from " ++
          toString pages.length ++ " packets." ∧
      (∀ jp pkts units,
        (sessionOf stC7 "s7").bind Session.json_path = some jp →
        alistGet jp stC7.fs = some (.jsonData (.arr pkts)) →
        loadList pkts = some units →
        pages = split_documents oracleFixture.textSplit units ∧
        ((∀ u ∈ units, (oracleFixture.textSplit u).length = 1) →
          pages.length = pkts.length)) :=
  index_success_summary oracleFixture stC7 "s7"
    (index_pcap oracleFixture stC7 "s7").1
    "Indexed 1 chunks from 1 packets." rfl

/-- An oracle whose character splitter cuts every loaded document into
two chunks — the behaviour `RecursiveCharacterTextSplitter` exhibits on
a document whose serialized layers exceed the default 4000-character
chunk size. -/
def oracleSplitTwo : Oracle where
  tshark := fun _ => none
  textSplit := fun u => [u, u]
  splitDocs := fun l => l
  showDoc := fun _ => "Document"
  buildChain := fun _ _ _ => 0
  answer := fun _ _ => none

/-- Claim C7, counterexample to the claim as stated: on a decoded
capture holding exactly one frame, with the character-splitting pass of
`load_and_split()` cutting that frame's loaded document in two (as the
default splitter does to an oversized frame), `index_pcap` succeeds but
stores two pages and reports "2 packets", so the summary's packet count
is not the number of network frames. -/
theorem index_summary_packet_count_counterexample :
    (sessionOf stC7 "s7").bind Session.json_path =
      some "/d7/cap.pcap.json" ∧
    alistGet "/d7/cap.pcap.json" stC7.fs =
      some (.jsonData (.arr [.obj pktFixture])) ∧
    [Json.obj pktFixture].length = 1 ∧
    (index_pcap oracleSplitTwo stC7 "s7").2 =
      .ok "Indexed 2 chunks from 2 packets." ∧
    ((sessionOf ((index_pcap oracleSplitTwo stC7 "s7").1) "s7").bind
      Session.pages).map List.length = some 2 ∧
    (2 : Nat) ≠ [Json.obj pktFixture].length :=
  ⟨rfl, rfl, rfl, rfl, rfl, by decide⟩

-- ### Append-only session records (C8)

/-- Every field set in `s` is still set in `s'`. -/
def fieldsPreserved (s s' : Session) : Prop :=
  (s.dir.isSome = true → s'.dir.isSome = true) ∧
  (s.pcap_path.isSome = true → s'.pcap_path.isSome = true) ∧
  (s.json_path.isSome = true → s'.json_path.isSome = true) ∧
  (s.docs.isSome = true → s'.docs.isSome = true) ∧
  (s.pages.isSome = true → s'.pages.isSome = true) ∧
  (s.qa.isSome = true → s'.qa.isSome = true)

theorem fieldsPreserved_refl (s : Session) : fieldsPreserved s s :=
  ⟨id, id, id, id, id, id⟩

theorem fieldsPreserved_trans (a b c : Session)
    (h1 : fieldsPreserved a b) (h2 : fieldsPreserved b c) :
    fieldsPreserved a c :=
  ⟨fun h => h2.1 (h1.1 h), fun h => h2.2.1 (h1.2.1 h),
   fun h => h2.2.2.1 (h1.2.2.1 h), fun h => h2.2.2.2.1 (h1.2.2.2.1 h),
   fun h => h2.2.2.2.2.1 (h1.2.2.2.2.1 h),
   fun h => h2.2.2.2.2.2 (h1.2.2.2.2.2 h)⟩

/-- One pipeline invocation other than `cleanup`. -/
inductive Op where
  | newSession (sid : String)
  | upload (sid filename : String) (decoded : Option (List Nat))
  | convert (sid : String)
  | index (sid : String)
  | analyze (sid question : String)

/-- Dispatch one tool call. -/
def runOp (o : Oracle) (st : St) : Op → St × Except Err String
  | .newSession sid => new_session st sid
  | .upload sid fn dec => upload_pcap_base64 st sid fn dec
  | .convert sid => convert_to_json o st sid
  | .index sid => index_pcap o st sid
  | .analyze sid q => analyze_pcap o st sid q

/-- Field preservation for a session map that is the `_session` result,
possibly overwritten at the target identifier by a field-superset of the
`_session` record. -/
theorem preserved_of_shapes (st : St) (sid : String)
    (sessArg : List (String × Session))
    (hshape : sessArg = ((_session st sid).2.2).sessions ∨
      ∃ X, sessArg = alistSet sid X ((_session st sid).2.2).sessions ∧
        fieldsPreserved ((_session st sid).2.1) X)
    (sid' : String) (s : Session)
    (h : alistGet sid' st.sessions = some s) :
    ∃ s', alistGet sid' sessArg = some s' ∧ fieldsPreserved s s' := by
  by_cases he : sid' = sid
  · subst he
    cases hd : s.dir with
    | some d =>
      rcases hshape with rfl | ⟨X, rfl, hX⟩
      · exact ⟨s, by simp [_session, h, hd], fieldsPreserved_refl s⟩
      · refine ⟨X, by simp [alistGet_alistSet_self], ?_⟩
        have h21 : (_session st sid').2.1 = s := by simp [_session, h, hd]
        rw [h21] at hX
        exact hX
    | none =>
      rcases hshape with rfl | ⟨X, rfl, hX⟩
      · refine ⟨{ s with dir := some (mkdtempName sid' st.ctr) }, ?_, ?_⟩
        · simp [_session, h, hd, alistGet_alistSet_self]
        · simp [fieldsPreserved]
      · refine ⟨X, by simp [alistGet_alistSet_self], ?_⟩
        have h21 : (_session st sid').2.1 =
            { s with dir := some (mkdtempName sid' st.ctr) } := by
          simp [_session, h, hd]
        rw [h21] at hX
        refine fieldsPreserved_trans _ _ _ ?_ hX
        simp [fieldsPreserved]
  · have h1 : alistGet sid' (((_session st sid).2.2).sessions) = some s := by
      cases hg : alistGet sid st.sessions with
      | none => simpa [_session, hg, alistGet_alistSet_ne _ _ he] using h
      | some t =>
        cases hdt : t.dir with
        | some d => simpa [_session, hg, hdt] using h
        | none => simpa [_session, hg, hdt, alistGet_alistSet_ne _ _ he] using h
    rcases hshape with rfl | ⟨X, rfl, hX⟩
    · exact ⟨s, h1, fieldsPreserved_refl s⟩
    · exact ⟨s, by rw [alistGet_alistSet_ne _ _ he]; exact h1,
        fieldsPreserved_refl s⟩

theorem _pcap_to_json_sessions (o : Oracle) (st : St) (a b : String) :
    ((_pcap_to_json o st a b).1).sessions = st.sessions := by
  cases hts : o.tshark (alistGet a st.fs) with
  | none => simp [_pcap_to_json, hts]
  | some j =>
    cases hsc : scrubData j with
    | none => simp [_pcap_to_json, hts, hsc]
    | some j' => simp [_pcap_to_json, hts, hsc]

theorem upload_sessions_shape (st : St) (sid fn : String)
    (dec : Option (List Nat)) :
    ((upload_pcap_base64 st sid fn dec).1).sessions =
      ((_session st sid).2.2).sessions ∨
    ((upload_pcap_base64 st sid fn dec).1).sessions =
      alistSet sid
        { (_session st sid).2.1 with
            pcap_path := some (joinPath (_session st sid).1 (basename fn)) }
        ((_session st sid).2.2).sessions := by
  cases hg : alistGet sid st.sessions with
  | none =>
    cases dec with
    | none => left; simp [upload_pcap_base64, _session, hg]
    | some raw => right; simp [upload_pcap_base64, _session, hg]
  | some s =>
    cases hd : s.dir with
    | some d =>
      cases dec with
      | none => left; simp [upload_pcap_base64, _session, hg, hd]
      | some raw => right; simp [upload_pcap_base64, _session, hg, hd]
    | none =>
      cases dec with
      | none => left; simp [upload_pcap_base64, _session, hg, hd]
      | some raw => right; simp [upload_pcap_base64, _session, hg, hd]

theorem analyze_sessions_shape (o : Oracle) (st : St) (sid q : String) :
    ((analyze_pcap o st sid q).1).sessions =
      ((_session st sid).2.2).sessions := by
  cases hg : alistGet sid st.sessions with
  | none => simp [analyze_pcap, _session, hg, Session.empty]
  | some s =>
    cases hd : s.dir with
    | some d =>
      cases hq : s.qa with
      | none => simp [analyze_pcap, _session, hg, hd, hq]
      | some hh =>
        cases ha : o.answer hh q with
        | none => simp [analyze_pcap, _session, hg, hd, hq, ha]
        | some a => simp [analyze_pcap, _session, hg, hd, hq, ha]
    | none =>
      cases hq : s.qa with
      | none => simp [analyze_pcap, _session, hg, hd, hq]
      | some hh =>
        cases ha : o.answer hh q with
        | none => simp [analyze_pcap, _session, hg, hd, hq, ha]
        | some a => simp [analyze_pcap, _session, hg, hd, hq, ha]

theorem convert_sessions_shape (o : Oracle) (st : St) (sid : String) :
    ((convert_to_json o st sid).1).sessions =
      ((_session st sid).2.2).sessions ∨
    ∃ jp, ((convert_to_json o st sid).1).sessions =
      alistSet sid { (_session st sid).2.1 with json_path := some jp }
        ((_session st sid).2.2).sessions := by
  rcases hsess : _session st sid with ⟨d, s0, st1⟩
  simp only [convert_to_json, hsess]
  cases hp : s0.pcap_path with
  | none => left; simp
  | some pp =>
    by_cases hpe : pp = ""
    · left; simp [hpe]
    · rcases hpj : _pcap_to_json o st1 pp (pp ++ ".json") with ⟨st2, r⟩
      have hs2 : st2.sessions = st1.sessions := by
        have h0 := _pcap_to_json_sessions o st1 pp (pp ++ ".json")
        rw [hpj] at h0
        exact h0
      cases r with
      | error e => left; simp [hpe, hpj, hs2]
      | ok u =>
        right
        exact ⟨pp ++ ".json", by simp [hpe, hpj, hs2]⟩

theorem index_sessions_shape (o : Oracle) (st : St) (sid : String) :
    ((index_pcap o st sid).1).sessions =
      ((_session st sid).2.2).sessions ∨
    ∃ ds ps qh, ((index_pcap o st sid).1).sessions =
      alistSet sid
        { (_session st sid).2.1 with
            docs := some ds
            pages := some ps
            qa := some qh }
        ((_session st sid).2.2).sessions := by
  rcases hsess : _session st sid with ⟨d, s0, st1⟩
  simp only [index_pcap, hsess]
  cases hj : s0.json_path with
  | none => left; simp
  | some jp =>
    by_cases hjp : jp = ""
    · left; simp [hjp]
    · cases hb : _build_docs_from_json o st1 jp with
      | error e => left; simp [hjp, hb]
      | ok pr =>
        obtain ⟨ds, ps⟩ := pr
        cases hde : ds.isEmpty with
        | true => left; simp [hjp, hb, hde]
        | false =>
          right
          exact ⟨ds, ps,
            o.buildChain ds (_return_system_text o ps)
              (joinPath d ("chroma_" ++ sid)),
            by simp [hjp, hb, hde]⟩

/-- Claim C8: Session records are append-only under every pipeline
operation other than `cleanup`: whatever `new_session`, an upload, a
decode, an index or a question does, every session field that was set
before the call — on any session — is still set afterwards. -/
theorem session_fields_append_only (o : Oracle) (st : St) (op : Op)
    (sid' : String) (s : Session)
    (h : alistGet sid' st.sessions = some s) :
    ∃ s', alistGet sid' ((runOp o st op).1).sessions = some s' ∧
      fieldsPreserved s s' := by
  cases op with
  | newSession sid =>
    exact preserved_of_shapes st sid _ (Or.inl rfl) sid' s h
  | upload sid fn dec =>
    rcases upload_sessions_shape st sid fn dec with hs | hs
    · exact preserved_of_shapes st sid _ (Or.inl hs) sid' s h
    · refine preserved_of_shapes st sid _ (Or.inr ⟨_, hs, ?_⟩) sid' s h
      simp [fieldsPreserved]
  | convert sid =>
    rcases convert_sessions_shape o st sid with hs | ⟨jp, hs⟩
    · exact preserved_of_shapes st sid _ (Or.inl hs) sid' s h
    · refine preserved_of_shapes st sid _ (Or.inr ⟨_, hs, ?_⟩) sid' s h
      simp [fieldsPreserved]
  | index sid =>
    rcases index_sessions_shape o st sid with hs | ⟨ds, ps, qh, hs⟩
    · exact preserved_of_shapes st sid _ (Or.inl hs) sid' s h
    · refine preserved_of_shapes st sid _ (Or.inr ⟨_, hs, ?_⟩) sid' s h
      simp [fieldsPreserved]
  | analyze sid q =>
    exact preserved_of_shapes st sid _
      (Or.inl (analyze_sessions_shape o st sid q)) sid' s h

/-- A session carrying two fields, used to witness the append-only
claim. -/
def sessC8 : Session :=
  { Session.empty with dir := some "/d8", pcap_path := some "/d8/a.pcap" }

def stC8 : St := { sessions := [("s8", sessC8)] }

theorem session_fields_append_only_witness :
    (alistGet "s8" stC8.sessions = some sessC8) ∧
    ∃ s', alistGet "s8"
        ((runOp oracleFixture stC8 (Op.convert "s8")).1).sessions = some s' ∧
      fieldsPreserved sessC8 s' :=
  ⟨rfl, session_fields_append_only oracleFixture stC8 (Op.convert "s8")
    "s8" sessC8 rfl⟩

end PacketCopilot
